import Mathlib

/-!
Shallow embedding of the interactive terminal core of the repository
(src/src/terminal.rs and the system registration in src/src/main.rs).

Rust strings are modelled as `List Char` (push = append at the end,
pop = `dropLast`).  The two text sections of the single `Text` entity are
modelled as two fields: `section0` is `text.sections[0].value` (the
transcript) and `section1` is `text.sections[1].value` (the current line).
The edge-triggered `ButtonInput::just_pressed` queries for Backspace and
Enter are passed in as booleans, and `std::process::exit(0)` is modelled by
the `StepResult.exited` constructor, which carries the state exactly as it
stood at the moment of the call (nothing mutated after it).
-/

namespace NeonCity

/-- The key identities the program distinguishes: the 38 keys that
`keycode_to_char` maps to a character, the two control keys Backspace and
Enter that `handle_input` / `update_terminal` query, and `other` standing
for every remaining `KeyCode` (all of which hit the wildcard arm). -/
inductive KeyCode where
  | keyA | keyB | keyC | keyD | keyE | keyF | keyG | keyH | keyI | keyJ
  | keyK | keyL | keyM | keyN | keyO | keyP | keyQ | keyR | keyS | keyT
  | keyU | keyV | keyW | keyX | keyY | keyZ
  | digit0 | digit1 | digit2 | digit3 | digit4
  | digit5 | digit6 | digit7 | digit8 | digit9
  | space | period
  | backspace | enter
  | other
  deriving DecidableEq, Fintype

/-- `keycode_to_char` (terminal.rs lines 115-157): the fixed key → optional
character table.  Backspace, Enter and every other key fall into the
wildcard `None` arm. -/
def keycode_to_char : KeyCode → Option Char
  | .keyA => some 'a'
  | .keyB => some 'b'
  | .keyC => some 'c'
  | .keyD => some 'd'
  | .keyE => some 'e'
  | .keyF => some 'f'
  | .keyG => some 'g'
  | .keyH => some 'h'
  | .keyI => some 'i'
  | .keyJ => some 'j'
  | .keyK => some 'k'
  | .keyL => some 'l'
  | .keyM => some 'm'
  | .keyN => some 'n'
  | .keyO => some 'o'
  | .keyP => some 'p'
  | .keyQ => some 'q'
  | .keyR => some 'r'
  | .keyS => some 's'
  | .keyT => some 't'
  | .keyU => some 'u'
  | .keyV => some 'v'
  | .keyW => some 'w'
  | .keyX => some 'x'
  | .keyY => some 'y'
  | .keyZ => some 'z'
  | .digit0 => some '0'
  | .digit1 => some '1'
  | .digit2 => some '2'
  | .digit3 => some '3'
  | .digit4 => some '4'
  | .digit5 => some '5'
  | .digit6 => some '6'
  | .digit7 => some '7'
  | .digit8 => some '8'
  | .digit9 => some '9'
  | .space => some ' '
  | .period => some '.'
  | _ => none

/-- A `KeyboardInput` event: the key identity and whether
`ev.state.is_pressed()` holds. -/
structure KeyEvent where
  keyCode : KeyCode
  pressed : Bool
  deriving DecidableEq

/-- `TerminalState` (terminal.rs lines 4-7): the resource holding the
line buffer `input`. -/
structure TerminalState where
  input : List Char
  deriving DecidableEq

/-- The two text sections of the terminal `Text` entity:
`section0` = `sections[0].value` (transcript),
`section1` = `sections[1].value` (current line). -/
structure Text where
  section0 : List Char
  section1 : List Char
  deriving DecidableEq

/-- The Unicode White_Space property, which Rust's `char::is_whitespace`
(used by `str::trim` and by the filter in `handle_input`) tests.  Written
out over the code points of the White_Space set. -/
def rust_is_whitespace (c : Char) : Bool :=
  (0x09 ≤ c.toNat && c.toNat ≤ 0x0D) || c.toNat == 0x20 || c.toNat == 0x85 ||
    c.toNat == 0xA0 || c.toNat == 0x1680 ||
    (0x2000 ≤ c.toNat && c.toNat ≤ 0x200A) ||
    c.toNat == 0x2028 || c.toNat == 0x2029 || c.toNat == 0x202F ||
    c.toNat == 0x205F || c.toNat == 0x3000

/-- Rust's `char::is_alphanumeric` restricted to the ASCII range, where it
holds exactly of the letters and digits.  Every character this program ever
tests is one of the 38 ASCII characters produced by `keycode_to_char`, on
which this agrees with the full Unicode predicate. -/
def rust_is_alphanumeric (c : Char) : Bool :=
  c.isAlpha || c.isDigit

/-- The insertion filter of `handle_input` (terminal.rs line 73):
`c.is_alphanumeric() || c.is_whitespace() || c == '.'`. -/
def insert_filter (c : Char) : Bool :=
  rust_is_alphanumeric c || rust_is_whitespace c || c == '.'

/-- `str::trim` (terminal.rs line 92): strip leading and trailing
whitespace. -/
def rust_trim (s : List Char) : List Char :=
  ((s.dropWhile rust_is_whitespace).reverse.dropWhile rust_is_whitespace).reverse

/-- The body of the per-event loop of `handle_input` (terminal.rs lines
68-79): on a pressed key, map it through `keycode_to_char`; if a character
comes out and passes the insertion filter, push it onto `state.input` and
onto `sections[1].value`. -/
def handle_input_event (ev : KeyEvent) (state : TerminalState) (text : Text) :
    TerminalState × Text :=
  if ev.pressed then
    match keycode_to_char ev.keyCode with
    | some c =>
      if insert_filter c then
        ({ input := state.input ++ [c] },
         { text with section1 := text.section1 ++ [c] })
      else (state, text)
    | none => (state, text)
  else (state, text)

/-- `handle_input` (terminal.rs lines 61-84): fold the per-event loop over
the events in arrival order, then, if Backspace was freshly pressed this
tick and the buffer is non-empty, pop the last character from both the
buffer and the current line. -/
def handle_input (events : List KeyEvent) (backspaceJustPressed : Bool)
    (state : TerminalState) (text : Text) : TerminalState × Text :=
  let p := events.foldl (fun p ev => handle_input_event ev p.1 p.2) (state, text)
  if backspaceJustPressed && !p.1.input.isEmpty then
    ({ input := p.1.input.dropLast },
     { p.2 with section1 := p.2.section1.dropLast })
  else p

/-- Result of a call that may hit `std::process::exit(0)`.  `exited`
carries the state exactly as it stood when the process exited: no field
had been mutated yet on that path. -/
inductive StepResult where
  | exited (state : TerminalState) (text : Text)
  | normal (state : TerminalState) (text : Text)
  deriving DecidableEq

/-- The if-else chain of `update_terminal` (terminal.rs lines 94-108)
computing the response for the trimmed command, with `none` standing for
the `exit` arm that calls `std::process::exit(0)` instead of producing a
string. -/
def command_response (cmd : List Char) : Option (List Char) :=
  if cmd = "nmap neotechlabs.com".toList then
    some "> Scanning NeoTech Labs...\n> Port 80: HTTP (vulnerable)".toList
  else if cmd = "ssh neotechlabs.com".toList then
    some "> Connected—auth required".toList
  else if cmd = "exploit".toList then
    some "> Firewall breached".toList
  else if cmd = "wget data".toList then
    some "> 500MB downloaded—trace active!".toList
  else if cmd = "cloak".toList then
    some "> Trace evaded".toList
  else if cmd = "exit".toList then
    none
  else
    some ("> Unknown command: ".toList ++ cmd ++ ". Type \x27help\x27 for options.".toList)

/-- `update_terminal` (terminal.rs lines 86-113): when Enter was freshly
pressed and the buffer is non-empty, trim the buffer, resolve the response;
on the `exit` arm the process exits with nothing mutated, otherwise the
response plus a newline is appended to the transcript, the current line is
reset to the prompt marker, and the buffer is cleared. -/
def update_terminal (enterJustPressed : Bool) (state : TerminalState)
    (text : Text) : StepResult :=
  if enterJustPressed && !state.input.isEmpty then
    match command_response (rust_trim state.input) with
    | none => StepResult.exited state text
    | some response =>
        StepResult.normal { input := [] }
          { section0 := text.section0 ++ response ++ "\n".toList,
            section1 := "> ".toList }
  else StepResult.normal state text

/-- The prompt marker put in front of the buffer in the current line. -/
def promptMarker : List Char := "> ".toList

/-- `TerminalState::default()`: empty buffer (setup_terminal, line 15). -/
def initialState : TerminalState := { input := [] }

/-- The two text sections as spawned by `setup_terminal`
(terminal.rs lines 34-58). -/
def initialText : Text :=
  { section0 := "Initializing...\n> Welcome to the dark pool, runner.\n".toList,
    section1 := "> ".toList }

/-- The per-tick input to the two systems: the keyboard events read this
tick and the two edge-triggered just-pressed flags. -/
structure TickInput where
  events : List KeyEvent
  backspaceJustPressed : Bool
  enterJustPressed : Bool

/-- One tick in the order the spec prescribes: `handle_input` first, then
`update_terminal` on the state accumulation produced. -/
def tick (ti : TickInput) (state : TerminalState) (text : Text) : StepResult :=
  let p := handle_input ti.events ti.backspaceJustPressed state text
  update_terminal ti.enterJustPressed p.1 p.2

/-- One tick in the opposite order, which the unordered system tuple in
main.rs line 16 (no explicit ordering between the two systems) also
permits: `update_terminal` first, then `handle_input`. -/
def tickSwapped (ti : TickInput) (state : TerminalState) (text : Text) :
    StepResult :=
  match update_terminal ti.enterJustPressed state text with
  | .exited s t => .exited s t
  | .normal s t =>
      let p := handle_input ti.events ti.backspaceJustPressed s t
      .normal p.1 p.2

/-- Run a sequence of ticks (spec order), stopping at a process exit. -/
def runTicks : List TickInput → TerminalState → Text → StepResult
  | [], state, text => .normal state text
  | ti :: rest, state, text =>
    match tick ti state text with
    | .exited s t => .exited s t
    | .normal s t => runTicks rest s t

/-- The mirroring invariant: the current-line section holds the prompt
marker followed character-for-character by the buffer. -/
def mirrored (state : TerminalState) (text : Text) : Prop :=
  text.section1 = promptMarker ++ state.input

instance (state : TerminalState) (text : Text) : Decidable (mirrored state text) := by
  unfold mirrored; infer_instance

/-- The transcript grows: the new content is the old content with some
tail appended. -/
def growsTo (old new : List Char) : Prop :=
  ∃ tail, new = old ++ tail

/-- The characters `keycode_to_char` can produce, used in the per-event
loop: the pressed events' mapped characters in arrival order. -/
def pressedMappedChars (events : List KeyEvent) : List Char :=
  events.filterMap fun ev => if ev.pressed then keycode_to_char ev.keyCode else none

/-- A tick in which exactly one key is pressed and no control key is
freshly pressed. -/
def charTick (k : KeyCode) : TickInput :=
  { events := [{ keyCode := k, pressed := true }],
    backspaceJustPressed := false, enterJustPressed := false }

/-- A tick with no key events in which Backspace is freshly pressed. -/
def eraseTick : TickInput :=
  { events := [], backspaceJustPressed := true, enterJustPressed := false }

/-- The list of characters in the range of `keycode_to_char`. -/
def allowedChars : List Char := "abcdefghijklmnopqrstuvwxyz0123456789 .".toList

lemma mapped_filter_and_allowed {k : KeyCode} {c : Char}
    (h : keycode_to_char k = some c) :
    insert_filter c = true ∧ c ∈ allowedChars := by
  have hall : ∀ k : KeyCode, ∀ c ∈ keycode_to_char k,
      insert_filter c = true ∧ c ∈ allowedChars := by decide
  exact hall k c (h ▸ rfl)

lemma foldl_handle_input_event (events : List KeyEvent) :
    ∀ (state : TerminalState) (text : Text),
    events.foldl (fun p ev => handle_input_event ev p.1 p.2) (state, text) =
      ({ input := state.input ++ pressedMappedChars events },
       { text with section1 := text.section1 ++ pressedMappedChars events }) := by
  induction events with
  | nil => intro state text; simp [pressedMappedChars]
  | cons ev rest ih =>
      intro state text
      rw [List.foldl_cons]
      cases hp : ev.pressed with
      | false =>
          have he : handle_input_event ev state text = (state, text) := by
            simp [handle_input_event, hp]
          rw [he, ih]
          simp [pressedMappedChars, hp]
      | true =>
          cases hc : keycode_to_char ev.keyCode with
          | none =>
              have he : handle_input_event ev state text = (state, text) := by
                simp [handle_input_event, hp, hc]
              rw [he, ih]
              simp [pressedMappedChars, hp, hc]
          | some c =>
              have hf := (mapped_filter_and_allowed hc).1
              have he : handle_input_event ev state text =
                  ({ input := state.input ++ [c] },
                   { text with section1 := text.section1 ++ [c] }) := by
                simp [handle_input_event, hp, hc, hf]
              rw [he, ih]
              simp [pressedMappedChars, hp, hc]

lemma handle_input_eq (events : List KeyEvent) (bsp : Bool)
    (state : TerminalState) (text : Text) :
    handle_input events bsp state text =
      if bsp && !(state.input ++ pressedMappedChars events).isEmpty then
        ({ input := (state.input ++ pressedMappedChars events).dropLast },
         { text with
            section1 := (text.section1 ++ pressedMappedChars events).dropLast })
      else
        ({ input := state.input ++ pressedMappedChars events },
         { text with section1 := text.section1 ++ pressedMappedChars events }) := by
  unfold handle_input
  rw [foldl_handle_input_event]

lemma handle_input_erase (state : TerminalState) (text : Text)
    (h : state.input ≠ []) :
    handle_input [] true state text =
      ({ input := state.input.dropLast },
       { text with section1 := text.section1.dropLast }) := by
  rw [handle_input_eq]
  simp [pressedMappedChars, List.isEmpty_eq_false.mpr h]

lemma handle_input_section0 (events : List KeyEvent) (bsp : Bool)
    (state : TerminalState) (text : Text) :
    ((handle_input events bsp state text).2).section0 = text.section0 := by
  rw [handle_input_eq]
  split <;> rfl

lemma mirrored_handle_input (events : List KeyEvent) (bsp : Bool)
    (state : TerminalState) (text : Text) (h : mirrored state text) :
    mirrored (handle_input events bsp state text).1
      (handle_input events bsp state text).2 := by
  rw [handle_input_eq]
  unfold mirrored at h ⊢
  by_cases hc : (bsp && !(state.input ++ pressedMappedChars events).isEmpty) = true
  · rw [if_pos hc]
    have hne : state.input ++ pressedMappedChars events ≠ [] := by
      rcases Bool.and_eq_true_iff.mp hc with ⟨_, hni⟩
      have hif : (state.input ++ pressedMappedChars events).isEmpty = false := by
        simpa using hni
      exact List.isEmpty_eq_false.mp hif
    show (text.section1 ++ pressedMappedChars events).dropLast =
      promptMarker ++ (state.input ++ pressedMappedChars events).dropLast
    rw [h, List.append_assoc, List.dropLast_append_of_ne_nil promptMarker hne]
  · rw [if_neg hc]
    show text.section1 ++ pressedMappedChars events =
      promptMarker ++ (state.input ++ pressedMappedChars events)
    rw [h, List.append_assoc]

lemma update_terminal_false (state : TerminalState) (text : Text) :
    update_terminal false state text = StepResult.normal state text := by
  simp [update_terminal]

lemma mirrored_update_terminal {enter : Bool} {state s2 : TerminalState}
    {text t2 : Text} (h : mirrored state text)
    (hu : update_terminal enter state text = StepResult.normal s2 t2) :
    mirrored s2 t2 := by
  unfold update_terminal at hu
  by_cases hc : (enter && !state.input.isEmpty) = true
  · rw [if_pos hc] at hu
    cases hr : command_response (rust_trim state.input) with
    | none => rw [hr] at hu; cases hu
    | some response =>
        rw [hr] at hu
        cases hu
        show ("> ".toList : List Char) = promptMarker ++ []
        rfl
  · rw [if_neg hc] at hu
    cases hu
    exact h

lemma mirrored_tick {ti : TickInput} {state s2 : TerminalState}
    {text t2 : Text} (h : mirrored state text)
    (ht : tick ti state text = StepResult.normal s2 t2) : mirrored s2 t2 := by
  unfold tick at ht
  exact mirrored_update_terminal
    (mirrored_handle_input ti.events ti.backspaceJustPressed state text h) ht

lemma runTicks_cons_normal {ti : TickInput} {tis : List TickInput}
    {state s2 : TerminalState} {text t2 : Text}
    (h : tick ti state text = StepResult.normal s2 t2) :
    runTicks (ti :: tis) state text = runTicks tis s2 t2 := by
  simp only [runTicks]
  rw [h]

lemma runTicks_cons_exited {ti : TickInput} {tis : List TickInput}
    {state s2 : TerminalState} {text t2 : Text}
    (h : tick ti state text = StepResult.exited s2 t2) :
    runTicks (ti :: tis) state text = StepResult.exited s2 t2 := by
  simp only [runTicks]
  rw [h]

lemma mirrored_runTicks (tis : List TickInput) :
    ∀ (state : TerminalState) (text : Text) (s2 : TerminalState) (t2 : Text),
    mirrored state text → runTicks tis state text = StepResult.normal s2 t2 →
    mirrored s2 t2 := by
  induction tis with
  | nil =>
      intro state text s2 t2 h hr
      cases hr
      exact h
  | cons ti rest ih =>
      intro state text s2 t2 h hr
      cases htk : tick ti state text with
      | exited a b => rw [runTicks_cons_exited htk] at hr; cases hr
      | normal a b =>
          rw [runTicks_cons_normal htk] at hr
          exact ih a b s2 t2 (mirrored_tick h htk) hr

lemma growsTo_refl (l : List Char) : growsTo l l := ⟨[], by simp⟩

lemma growsTo_trans {a b c : List Char} (h1 : growsTo a b) (h2 : growsTo b c) :
    growsTo a c := by
  obtain ⟨u, rfl⟩ := h1
  obtain ⟨v, rfl⟩ := h2
  exact ⟨u ++ v, by simp⟩

lemma update_terminal_growsTo {enter : Bool} {state s2 : TerminalState}
    {text t2 : Text}
    (hu : update_terminal enter state text = StepResult.normal s2 t2) :
    growsTo text.section0 t2.section0 := by
  unfold update_terminal at hu
  by_cases hc : (enter && !state.input.isEmpty) = true
  · rw [if_pos hc] at hu
    cases hr : command_response (rust_trim state.input) with
    | none => rw [hr] at hu; cases hu
    | some response =>
        rw [hr] at hu
        cases hu
        exact ⟨response ++ "\n".toList, by simp⟩
  · rw [if_neg hc] at hu
    cases hu
    exact growsTo_refl _


lemma tick_growsTo {ti : TickInput} {state s2 : TerminalState} {text t2 : Text}
    (ht : tick ti state text = StepResult.normal s2 t2) :
    growsTo text.section0 t2.section0 := by
  unfold tick at ht
  have hs0 := handle_input_section0 ti.events ti.backspaceJustPressed state text
  have hg := update_terminal_growsTo ht
  rw [hs0] at hg
  exact hg

lemma runTicks_growsTo (tis : List TickInput) :
    ∀ (state : TerminalState) (text : Text) (s2 : TerminalState) (t2 : Text),
    runTicks tis state text = StepResult.normal s2 t2 →
    growsTo text.section0 t2.section0 := by
  induction tis with
  | nil =>
      intro state text s2 t2 hr
      cases hr
      exact growsTo_refl _
  | cons ti rest ih =>
      intro state text s2 t2 hr
      cases htk : tick ti state text with
      | exited a b => rw [runTicks_cons_exited htk] at hr; cases hr
      | normal a b =>
          rw [runTicks_cons_normal htk] at hr
          exact growsTo_trans (tick_growsTo htk) (ih a b s2 t2 hr)

lemma command_response_eq_none_iff (cmd : List Char) :
    command_response cmd = none ↔ cmd = "exit".toList := by
  constructor
  · intro h
    unfold command_response at h
    split_ifs at h with h1 h2 h3 h4 h5 h6
    all_goals simp_all
  · intro h
    subst h
    decide

lemma command_response_default {cmd : List Char}
    (h1 : cmd ≠ "nmap neotechlabs.com".toList)
    (h2 : cmd ≠ "ssh neotechlabs.com".toList)
    (h3 : cmd ≠ "exploit".toList)
    (h4 : cmd ≠ "wget data".toList)
    (h5 : cmd ≠ "cloak".toList)
    (h6 : cmd ≠ "exit".toList) :
    command_response cmd =
      some ("> Unknown command: ".toList ++ cmd
        ++ ". Type \x27help\x27 for options.".toList) := by
  unfold command_response
  rw [if_neg h1, if_neg h2, if_neg h3, if_neg h4, if_neg h5, if_neg h6]

lemma update_terminal_submit {state : TerminalState} (text : Text)
    {response : List Char} (hne : state.input ≠ [])
    (hr : command_response (rust_trim state.input) = some response) :
    update_terminal true state text =
      StepResult.normal { input := [] }
        { section0 := text.section0 ++ response ++ "\n".toList,
          section1 := "> ".toList } := by
  unfold update_terminal
  rw [List.isEmpty_eq_false.mpr hne, hr]
  rfl

lemma runTicks_append (a b : List TickInput) :
    ∀ (state : TerminalState) (text : Text),
    runTicks (a ++ b) state text =
      match runTicks a state text with
      | StepResult.exited s2 t2 => StepResult.exited s2 t2
      | StepResult.normal s2 t2 => runTicks b s2 t2 := by
  induction a with
  | nil => intro state text; rfl
  | cons ti rest ih =>
      intro state text
      rw [List.cons_append]
      cases htk : tick ti state text with
      | exited s2 t2 =>
          rw [runTicks_cons_exited htk, runTicks_cons_exited htk]
      | normal s2 t2 =>
          rw [runTicks_cons_normal htk, runTicks_cons_normal htk, ih s2 t2]

lemma tick_charTick (k : KeyCode) (state : TerminalState) (text : Text) :
    tick (charTick k) state text =
      StepResult.normal
        { input := state.input ++ (keycode_to_char k).toList }
        { text with section1 := text.section1 ++ (keycode_to_char k).toList } := by
  unfold tick charTick
  rw [handle_input_eq]
  have hpm : pressedMappedChars [{ keyCode := k, pressed := true }] =
      (keycode_to_char k).toList := by
    cases hk : keycode_to_char k <;> simp [pressedMappedChars, hk]
  simp only [Bool.false_and, Bool.and_eq_true]
  rw [if_neg (by simp)]
  rw [update_terminal_false, hpm]

lemma runTicks_charTicks (ks : List KeyCode) :
    ∀ (state : TerminalState) (text : Text),
    runTicks (ks.map charTick) state text =
      StepResult.normal
        { input := state.input ++ ks.filterMap keycode_to_char }
        { text with section1 := text.section1 ++ ks.filterMap keycode_to_char } := by
  induction ks with
  | nil => intro state text; simp [runTicks]
  | cons k rest ih =>
      intro state text
      rw [List.map_cons, runTicks_cons_normal (tick_charTick k state text), ih]
      cases hk : keycode_to_char k <;> simp [List.filterMap_cons, hk]

lemma runTicks_eraseTicks (M : Nat) :
    ∀ (state : TerminalState) (text : Text),
    M ≤ state.input.length → mirrored state text →
    runTicks (List.replicate M eraseTick) state text =
      StepResult.normal
        { input := state.input.take (state.input.length - M) }
        { text with
            section1 := promptMarker ++ state.input.take (state.input.length - M) } := by
  induction M with
  | zero =>
      intro state text hM hm
      unfold mirrored at hm
      have h0 : List.replicate 0 eraseTick = ([] : List TickInput) := rfl
      rw [h0]
      simp only [runTicks, Nat.sub_zero, List.take_length]
      rw [← hm]
  | succ M ih =>
      intro state text hM hm
      have hne : state.input ≠ [] := by
        intro h
        rw [h] at hM
        simp at hM
      have htick : tick eraseTick state text =
          StepResult.normal { input := state.input.dropLast }
            { text with section1 := text.section1.dropLast } := by
        unfold tick eraseTick
        rw [handle_input_erase state text hne, update_terminal_false]
      have hm2 : mirrored { input := state.input.dropLast }
          { text with section1 := text.section1.dropLast } := by
        unfold mirrored at hm ⊢
        show text.section1.dropLast = promptMarker ++ state.input.dropLast
        rw [hm, List.dropLast_append_of_ne_nil promptMarker hne]
      have hlen : M ≤ state.input.dropLast.length := by
        rw [List.length_dropLast]
        omega
      rw [List.replicate_succ, runTicks_cons_normal htick, ih _ _ hlen hm2]
      have htake : (state.input.dropLast).take (state.input.dropLast.length - M) =
          state.input.take (state.input.length - (M + 1)) := by
        rw [List.length_dropLast, List.dropLast_eq_take, List.take_take,
          min_eq_left (by omega)]
        congr 1
        omega
      rw [htake]

lemma filterMap_length_of_isSome {ks : List KeyCode}
    (h : ∀ k ∈ ks, (keycode_to_char k).isSome = true) :
    (ks.filterMap keycode_to_char).length = ks.length := by
  induction ks with
  | nil => rfl
  | cons k rest ih =>
      cases hk : keycode_to_char k with
      | none =>
          exfalso
          have := h k (by simp)
          rw [hk] at this
          cases this
      | some c =>
          have hrest : ∀ x ∈ rest, (keycode_to_char x).isSome = true := by
            intro x hx
            exact h x (by simp [hx])
          simp [List.filterMap_cons, hk, ih hrest]

lemma pressedMappedChars_allowed (events : List KeyEvent) :
    ∀ c ∈ pressedMappedChars events, c ∈ allowedChars := by
  intro c hc
  unfold pressedMappedChars at hc
  rw [List.mem_filterMap] at hc
  obtain ⟨ev, _, hmap⟩ := hc
  by_cases hp : ev.pressed = true
  · rw [if_pos hp] at hmap
    exact (mapped_filter_and_allowed hmap).2
  · rw [if_neg hp] at hmap
    cases hmap

lemma handle_input_allowed {events : List KeyEvent} {bsp : Bool}
    {state : TerminalState} {text : Text}
    (h : ∀ c ∈ state.input, c ∈ allowedChars) :
    ∀ c ∈ (handle_input events bsp state text).1.input, c ∈ allowedChars := by
  rw [handle_input_eq]
  split
  · intro c hc
    have hc2 : c ∈ (state.input ++ pressedMappedChars events).dropLast := hc
    have hc3 := List.dropLast_subset _ hc2
    rw [List.mem_append] at hc3
    rcases hc3 with h1 | h2
    · exact h c h1
    · exact pressedMappedChars_allowed events c h2
  · intro c hc
    have hc2 : c ∈ state.input ++ pressedMappedChars events := hc
    rw [List.mem_append] at hc2
    rcases hc2 with h1 | h2
    · exact h c h1
    · exact pressedMappedChars_allowed events c h2

lemma update_terminal_allowed {enter : Bool} {state s2 : TerminalState}
    {text t2 : Text} (h : ∀ c ∈ state.input, c ∈ allowedChars)
    (hu : update_terminal enter state text = StepResult.normal s2 t2) :
    ∀ c ∈ s2.input, c ∈ allowedChars := by
  unfold update_terminal at hu
  by_cases hc : (enter && !state.input.isEmpty) = true
  · rw [if_pos hc] at hu
    cases hr : command_response (rust_trim state.input) with
    | none => rw [hr] at hu; cases hu
    | some r =>
        rw [hr] at hu
        cases hu
        intro c hcm
        cases hcm
  · rw [if_neg hc] at hu
    cases hu
    exact h

lemma runTicks_allowed (tis : List TickInput) :
    ∀ (state : TerminalState) (text : Text) (s2 : TerminalState) (t2 : Text),
    (∀ c ∈ state.input, c ∈ allowedChars) →
    runTicks tis state text = StepResult.normal s2 t2 →
    ∀ c ∈ s2.input, c ∈ allowedChars := by
  induction tis with
  | nil =>
      intro state text s2 t2 h hr
      cases hr
      exact h
  | cons ti rest ih =>
      intro state text s2 t2 h hr
      cases htk : tick ti state text with
      | exited a b => rw [runTicks_cons_exited htk] at hr; cases hr
      | normal a b =>
          rw [runTicks_cons_normal htk] at hr
          have ha : ∀ c ∈ a.input, c ∈ allowedChars := by
            unfold tick at htk
            exact update_terminal_allowed (handle_input_allowed h) htk
          exact ih a b s2 t2 ha hr

lemma rust_trim_eq_nil {l : List Char}
    (h : ∀ c ∈ l, rust_is_whitespace c = true) : rust_trim l = [] := by
  unfold rust_trim
  rw [List.dropWhile_eq_nil_iff.mpr h]
  rfl

lemma whitespace_submit {state : TerminalState} (text : Text)
    (hne : state.input ≠ [])
    (hws : ∀ c ∈ state.input, rust_is_whitespace c = true) :
    update_terminal true state text =
      StepResult.normal { input := [] }
        { section0 := text.section0 ++
            ("> Unknown command: ".toList ++ []
              ++ ". Type \x27help\x27 for options.".toList) ++ "\n".toList,
          section1 := "> ".toList } := by
  have hcr : command_response (rust_trim state.input) =
      some ("> Unknown command: ".toList ++ []
        ++ ". Type \x27help\x27 for options.".toList) := by
    rw [rust_trim_eq_nil hws]
    decide
  exact update_terminal_submit text hne hcr

/-- C1: Mirroring invariant — after every operation (character append, erase,
and non-terminating submit), the current-line section equals the prompt
marker followed character-for-character by the buffer; this holds for every
sequence of ticks (key events and submits) from the initial empty-buffer
state. -/
theorem mirroring_invariant (tis : List TickInput) (s2 : TerminalState)
    (t2 : Text)
    (h : runTicks tis initialState initialText = StepResult.normal s2 t2) :
    mirrored s2 t2 :=
  mirrored_runTicks tis initialState initialText s2 t2 (by decide) h

theorem mirroring_invariant_witness :
    mirrored { input := ['a'] }
      { section0 := "Initializing...\n> Welcome to the dark pool, runner.\n".toList,
        section1 := "> a".toList } :=
  mirroring_invariant
    [{ events := [{ keyCode := KeyCode.keyA, pressed := true }],
       backspaceJustPressed := false, enterJustPressed := false }]
    { input := ['a'] }
    { section0 := "Initializing...\n> Welcome to the dark pool, runner.\n".toList,
      section1 := "> a".toList }
    (by decide)

/-- C2: In one accumulation call the buffer afterwards equals its prior
content followed by the concatenation, in event-arrival order, of the
characters the key table maps the pressed keys to (and the current line
gains the same characters); a pressed key outside the table leaves buffer
and current line unchanged. -/
theorem accumulation_spec :
    (∀ (events : List KeyEvent) (state : TerminalState) (text : Text),
      handle_input events false state text =
        ({ input := state.input ++ pressedMappedChars events },
         { text with section1 := text.section1 ++ pressedMappedChars events })) ∧
    (∀ (ev : KeyEvent) (state : TerminalState) (text : Text),
      keycode_to_char ev.keyCode = none →
        handle_input_event ev state text = (state, text)) := by
  constructor
  · intro events state text
    rw [handle_input_eq]
    rfl
  · intro ev state text h
    cases hp : ev.pressed <;> simp [handle_input_event, hp, h]

theorem accumulation_spec_witness :
    handle_input_event { keyCode := KeyCode.enter, pressed := true }
      initialState initialText = (initialState, initialText) :=
  accumulation_spec.2 { keyCode := KeyCode.enter, pressed := true }
    initialState initialText rfl

/-- C3: On submit with a non-empty buffer the candidate command is the
buffer trimmed of leading/trailing whitespace, matched case-sensitively
and exactly; if it matches no table entry, the transcript gains
"> Unknown command: {candidate}. Type 'help' for options." plus a
newline, where the candidate is the trimmed text. -/
theorem unknown_command_submit (state : TerminalState) (text : Text)
    (hne : state.input ≠ [])
    (h1 : rust_trim state.input ≠ "nmap neotechlabs.com".toList)
    (h2 : rust_trim state.input ≠ "ssh neotechlabs.com".toList)
    (h3 : rust_trim state.input ≠ "exploit".toList)
    (h4 : rust_trim state.input ≠ "wget data".toList)
    (h5 : rust_trim state.input ≠ "cloak".toList)
    (h6 : rust_trim state.input ≠ "exit".toList) :
    update_terminal true state text =
      StepResult.normal { input := [] }
        { section0 := text.section0 ++
            ("> Unknown command: ".toList ++ rust_trim state.input
              ++ ". Type \x27help\x27 for options.".toList) ++ "\n".toList,
          section1 := "> ".toList } :=
  update_terminal_submit text hne (command_response_default h1 h2 h3 h4 h5 h6)

theorem unknown_command_submit_witness :
    update_terminal true { input := "foo".toList } initialText =
      StepResult.normal { input := [] }
        { section0 := initialText.section0 ++
            ("> Unknown command: ".toList ++ rust_trim "foo".toList
              ++ ". Type \x27help\x27 for options.".toList) ++ "\n".toList,
          section1 := "> ".toList } :=
  unknown_command_submit { input := "foo".toList } initialText (by decide)
    (by decide) (by decide) (by decide) (by decide) (by decide) (by decide)

/-- C4: update_terminal reaches the process-exit hook exactly when Enter is
freshly pressed, the buffer is non-empty, and the trimmed buffer equals
"exit"; and on that path the state carried out is exactly the incoming
state — nothing had been mutated when the hook ran.  (handle_input returns
a plain state pair: by its type it cannot reach the hook at all.) -/
theorem exit_command_semantics :
    (∀ (enter : Bool) (state : TerminalState) (text : Text)
        (s0 : TerminalState) (t0 : Text),
      update_terminal enter state text = StepResult.exited s0 t0 →
        s0 = state ∧ t0 = text) ∧
    (∀ (enter : Bool) (state : TerminalState) (text : Text),
      (∃ s0 t0, update_terminal enter state text = StepResult.exited s0 t0) ↔
        (enter = true ∧ state.input ≠ [] ∧
          rust_trim state.input = "exit".toList)) := by
  constructor
  · intro enter state text s0 t0 h
    unfold update_terminal at h
    by_cases hc : (enter && !state.input.isEmpty) = true
    · rw [if_pos hc] at h
      cases hr : command_response (rust_trim state.input) with
      | none =>
          rw [hr] at h
          cases h
          exact ⟨rfl, rfl⟩
      | some r => rw [hr] at h; cases h
    · rw [if_neg hc] at h
      cases h
  · intro enter state text
    constructor
    · rintro ⟨s0, t0, h⟩
      unfold update_terminal at h
      by_cases hc : (enter && !state.input.isEmpty) = true
      · rcases Bool.and_eq_true_iff.mp hc with ⟨he, hni⟩
        cases hr : command_response (rust_trim state.input) with
        | none =>
            refine ⟨he, ?_, (command_response_eq_none_iff _).mp hr⟩
            have hf : state.input.isEmpty = false := by simpa using hni
            exact List.isEmpty_eq_false.mp hf
        | some r =>
            rw [if_pos hc, hr] at h
            cases h
      · rw [if_neg hc] at h
        cases h
    · rintro ⟨he, hne, hcmd⟩
      subst he
      refine ⟨state, text, ?_⟩
      unfold update_terminal
      rw [List.isEmpty_eq_false.mpr hne, hcmd]
      have hr : command_response "exit".toList = none := by decide
      rw [hr]
      rfl

theorem exit_command_semantics_witness :
    ({ input := "exit".toList } : TerminalState) = { input := "exit".toList } ∧
      initialText = initialText :=
  exit_command_semantics.1 true { input := "exit".toList } initialText
    { input := "exit".toList } initialText (by decide)

/-- C5: Round trip — from the initial state, typing the characters of
"exploit" and then submitting appends exactly "> Firewall breached\n" to
the transcript, empties the buffer, and resets the current line to
"> ". -/
theorem exploit_round_trip :
    runTicks
      [{ events := [{ keyCode := KeyCode.keyE, pressed := true },
                    { keyCode := KeyCode.keyX, pressed := true },
                    { keyCode := KeyCode.keyP, pressed := true },
                    { keyCode := KeyCode.keyL, pressed := true },
                    { keyCode := KeyCode.keyO, pressed := true },
                    { keyCode := KeyCode.keyI, pressed := true },
                    { keyCode := KeyCode.keyT, pressed := true }],
         backspaceJustPressed := false, enterJustPressed := false },
       { events := [], backspaceJustPressed := false, enterJustPressed := true }]
      initialState initialText =
      StepResult.normal { input := [] }
        { section0 := initialText.section0 ++ "> Firewall breached\n".toList,
          section1 := "> ".toList } := by
  decide

/-- C6: Within one accumulation call all character insertions apply in
arrival order before the single edge-triggered erase check, which (when the
buffer is non-empty) removes exactly the last character from buffer and
current line; consequently N character presses followed by M erase presses
(M ≤ N, one erase per tick) before any submit leave the buffer holding
exactly the first N−M characters typed. -/
theorem insert_then_erase_sequence :
    (∀ (events : List KeyEvent) (bsp : Bool) (state : TerminalState)
        (text : Text),
      handle_input events bsp state text =
        if bsp && !(state.input ++ pressedMappedChars events).isEmpty then
          ({ input := (state.input ++ pressedMappedChars events).dropLast },
           { text with
              section1 := (text.section1 ++ pressedMappedChars events).dropLast })
        else
          ({ input := state.input ++ pressedMappedChars events },
           { text with
              section1 := text.section1 ++ pressedMappedChars events })) ∧
    (∀ (ks : List KeyCode) (M : Nat),
      (∀ k ∈ ks, (keycode_to_char k).isSome = true) → M ≤ ks.length →
      runTicks (ks.map charTick ++ List.replicate M eraseTick)
          initialState initialText =
        StepResult.normal
          { input := (ks.filterMap keycode_to_char).take (ks.length - M) }
          { section0 := initialText.section0,
            section1 := promptMarker ++
              (ks.filterMap keycode_to_char).take (ks.length - M) }) := by
  constructor
  · exact handle_input_eq
  · intro ks M hks hM
    have hlen : (ks.filterMap keycode_to_char).length = ks.length :=
      filterMap_length_of_isSome hks
    have h1 : M ≤ (initialState.input ++ ks.filterMap keycode_to_char).length := by
      show M ≤ (ks.filterMap keycode_to_char).length
      rw [hlen]
      exact hM
    have h2 : mirrored
        { input := initialState.input ++ ks.filterMap keycode_to_char }
        { initialText with
            section1 := initialText.section1 ++ ks.filterMap keycode_to_char } := by
      show initialText.section1 ++ ks.filterMap keycode_to_char =
        promptMarker ++ (initialState.input ++ ks.filterMap keycode_to_char)
      rfl
    rw [runTicks_append, runTicks_charTicks]
    show runTicks (List.replicate M eraseTick)
        { input := initialState.input ++ ks.filterMap keycode_to_char }
        { initialText with
            section1 := initialText.section1 ++ ks.filterMap keycode_to_char } = _
    rw [runTicks_eraseTicks M _ _ h1 h2]
    simp only [initialState, List.nil_append, hlen]

theorem insert_then_erase_sequence_witness :
    runTicks ([KeyCode.keyA, KeyCode.keyB].map charTick
        ++ List.replicate 1 eraseTick) initialState initialText =
      StepResult.normal
        { input := ([KeyCode.keyA, KeyCode.keyB].filterMap keycode_to_char).take
            ([KeyCode.keyA, KeyCode.keyB].length - 1) }
        { section0 := initialText.section0,
          section1 := promptMarker ++
            ([KeyCode.keyA, KeyCode.keyB].filterMap keycode_to_char).take
              ([KeyCode.keyA, KeyCode.keyB].length - 1) } :=
  insert_then_erase_sequence.2 [KeyCode.keyA, KeyCode.keyB] 1 (by decide)
    (by decide)

/-- C7: Erase with an empty buffer and submit with an empty buffer are both
no-ops: neither mutates the buffer, the current line, or the transcript. -/
theorem empty_buffer_noops (state : TerminalState) (text : Text)
    (h : state.input = []) :
    handle_input [] true state text = (state, text) ∧
    update_terminal true state text = StepResult.normal state text := by
  cases state with
  | mk input =>
      have h2 : input = [] := h
      subst h2
      constructor
      · rw [handle_input_eq]
        simp [pressedMappedChars]
      · simp [update_terminal]

theorem empty_buffer_noops_witness :
    handle_input [] true initialState initialText = (initialState, initialText) ∧
    update_terminal true initialState initialText =
      StepResult.normal initialState initialText :=
  empty_buffer_noops initialState initialText rfl

/-- C8: The transcript is append-only — accumulation never touches it, and
after any submit (and any whole sequence of ticks) that returns normally
the prior transcript content is a prefix of the new content. -/
theorem transcript_append_only :
    (∀ (events : List KeyEvent) (bsp : Bool) (state : TerminalState)
        (text : Text),
      ((handle_input events bsp state text).2).section0 = text.section0) ∧
    (∀ (enter : Bool) (state s2 : TerminalState) (text t2 : Text),
      update_terminal enter state text = StepResult.normal s2 t2 →
      growsTo text.section0 t2.section0) ∧
    (∀ (tis : List TickInput) (state s2 : TerminalState) (text t2 : Text),
      runTicks tis state text = StepResult.normal s2 t2 →
      growsTo text.section0 t2.section0) :=
  ⟨handle_input_section0,
   fun _ _ _ _ _ h => update_terminal_growsTo h,
   fun tis s s2 t t2 h => runTicks_growsTo tis s t s2 t2 h⟩

theorem transcript_append_only_witness :
    growsTo initialText.section0 initialText.section0 :=
  transcript_append_only.2.1 true initialState initialState initialText
    initialText (by decide)

/-- C9: the spec requires handle_input to run strictly before
update_terminal each tick, but main.rs registers the two systems as an
unordered tuple (no .chain()), so the scheduler may also run them in the
opposite order — and the two orders are observably different: with the
buffer holding "exploi", a tick that presses KeyT and freshly presses
Enter submits "exploit" in the spec's order but "exploi" in the swapped
order. -/
theorem tick_order_observable :
    tick
      { events := [{ keyCode := KeyCode.keyT, pressed := true }],
        backspaceJustPressed := false, enterJustPressed := true }
      { input := "exploi".toList }
      { section0 := initialText.section0, section1 := "> exploi".toList } ≠
    tickSwapped
      { events := [{ keyCode := KeyCode.keyT, pressed := true }],
        backspaceJustPressed := false, enterJustPressed := true }
      { input := "exploi".toList }
      { section0 := initialText.section0, section1 := "> exploi".toList } := by
  decide

/-- C10: every character the key table returns passes the insertion filter
and lies in the set a–z, 0–9, space, period — and that set is exactly the
table's range; hence the buffer only ever contains characters from that
set; a buffer holding only whitespace is non-empty, passes the submit
guard, trims to the empty candidate, and yields the transcript line
"> Unknown command: . Type 'help' for options." plus a newline. -/
theorem keycode_table_range_and_whitespace :
    (∀ (k : KeyCode) (c : Char), keycode_to_char k = some c →
      insert_filter c = true ∧ c ∈ allowedChars) ∧
    (∀ c ∈ allowedChars, ∃ k, keycode_to_char k = some c) ∧
    (∀ (tis : List TickInput) (s2 : TerminalState) (t2 : Text),
      runTicks tis initialState initialText = StepResult.normal s2 t2 →
      ∀ c ∈ s2.input, c ∈ allowedChars) ∧
    (∀ (state : TerminalState) (text : Text), state.input ≠ [] →
      (∀ c ∈ state.input, rust_is_whitespace c = true) →
      update_terminal true state text =
        StepResult.normal { input := [] }
          { section0 := text.section0 ++
              "> Unknown command: . Type \x27help\x27 for options.\n".toList,
            section1 := "> ".toList }) := by
  refine ⟨fun _ _ h => mapped_filter_and_allowed h, by decide, ?_, ?_⟩
  · intro tis s2 t2 h
    exact runTicks_allowed tis initialState initialText s2 t2 (by decide) h
  · intro state text hne hws
    have h := whitespace_submit text hne hws
    have heq : (("> Unknown command: ".toList ++ []
        ++ ". Type \x27help\x27 for options.".toList) ++ "\n".toList : List Char) =
        "> Unknown command: . Type \x27help\x27 for options.\n".toList := by decide
    rw [h, ← heq]
    simp [List.append_assoc]

theorem keycode_table_range_and_whitespace_witness :
    update_terminal true { input := [' '] } initialText =
      StepResult.normal { input := [] }
        { section0 := initialText.section0 ++
            "> Unknown command: . Type \x27help\x27 for options.\n".toList,
          section1 := "> ".toList } :=
  keycode_table_range_and_whitespace.2.2.2 { input := [' '] } initialText
    (by decide) (by decide)

end NeonCity
